import Mathlib

/-!
# Verification of the wasmtk WASI host runtime and introspection engine

This development shallowly embeds the syscall emulation layer, the
instantiation/invocation driver and the introspection reporter of the
wasmtk toolkit, and proves the behavioural claims of its specification
against the embedding.

The repository contains three overlapping implementations of the
WASI syscall surface:

* `utils` — the emulation layer of `utils.ts` (the `wasiImports` object
  plus `runWasi`, `showInfo` and `checkIsLibrary`), the one the CLI uses;
* `runnerTs` — the `createWasiImports`/`runFile` variant of `runner.ts`;
* `runnerDoc` — the documented `createWasiImports`/`executeWasm` variant
  (the module whose doc header also calls itself `runner`).

Guest linear memory is modelled as a `List Nat` of bytes, host streams as
byte lists, and every multi-byte write is little-endian, exactly as the
source's `DataView` calls with `littleEndian = true`.
-/

/-- A byte of guest linear memory; out-of-range reads give 0.
(`DataView` would trap out of range; all theorems below either stay in
bounds or do not depend on out-of-range behaviour.) -/
def byteAt (m : List Nat) (a : Nat) : Nat := m.getD a 0

/-- Store one byte (value truncated mod 256, as `DataView.setUint8` does).
`List.set` is the identity out of range. -/
def setByte (m : List Nat) (a v : Nat) : List Nat := m.set a (v % 256)

/-- `DataView.getUint32(a, true)`: little-endian 32-bit read. -/
def readU32 (m : List Nat) (a : Nat) : Nat :=
  byteAt m a + 256 * byteAt m (a + 1) + 65536 * byteAt m (a + 2) +
    16777216 * byteAt m (a + 3)

/-- `DataView.setUint16(a, v, true)`: little-endian 16-bit store. -/
def setU16 (m : List Nat) (a v : Nat) : List Nat :=
  setByte (setByte m a v) (a + 1) (v / 256)

/-- `DataView.setUint32(a, v, true)`: little-endian 32-bit store
(truncates to 32 bits via the per-byte `% 256`). -/
def setU32 (m : List Nat) (a v : Nat) : List Nat :=
  setByte (setByte (setByte (setByte m a v) (a + 1) (v / 256))
    (a + 2) (v / 65536)) (a + 3) (v / 16777216)

/-- `DataView.setBigUint64(a, v, true)`: little-endian 64-bit store. -/
def setU64 (m : List Nat) (a v : Nat) : List Nat :=
  setU32 (setU32 m a v) (a + 4) (v / 4294967296)

/-- `Uint8Array.prototype.set(bytes, ptr)`: copy a byte range into memory. -/
def writeBytes (m : List Nat) (p : Nat) (bs : List Nat) : List Nat :=
  match bs with
  | [] => m
  | b :: rest => writeBytes (setByte m p b) (p + 1) rest

/-- `new Uint8Array(memory.buffer, p, len)` read out as a byte list. -/
def bytesAt (m : List Nat) (p len : Nat) : List Nat :=
  (List.range len).map (fun k => byteAt m (p + k))

/-- The (pointer, length) descriptor pairs of an iovec array, read
little-endian from guest memory at `iovs` (8 bytes per entry). -/
def iovecDescs (m : List Nat) (iovs count : Nat) : List (Nat × Nat) :=
  (List.range count).map
    (fun i => (readU32 m (iovs + 8 * i), readU32 m (iovs + 8 * i + 4)))

/-- The byte segments an iovec array refers to. -/
def iovecSegs (m : List Nat) (iovs count : Nat) : List (List Nat) :=
  (iovecDescs m iovs count).map (fun pr => bytesAt m pr.1 pr.2)

/-- The full byte sequence described by an iovec array, in order. -/
def iovecBytes (m : List Nat) (iovs count : Nat) : List Nat :=
  (iovecSegs m iovs count).flatten

/-- Host-observable machine state: guest linear memory plus the host's
standard streams (byte lists; stdout/stderr grow, stdin is consumed). -/
structure Machine where
  mem : List Nat
  stdout : List Nat
  stderr : List Nat
  stdin : List Nat
  deriving Repr, DecidableEq



/-! ## Character and string helpers

JS string operations are modelled char-wise so that everything is
executable and provable without `String` internals. -/

/-- Does `pre` occur at the very start of `l`? (char-wise `startsWith`). -/
def leadMatch : List Char → List Char → Bool
  | [], _ => true
  | _ :: _, [] => false
  | a :: as, b :: bs => a = b && leadMatch as bs

/-- Does `needle` occur contiguously anywhere in `hay`?
(char-wise `String.prototype.includes`). -/
def subMatch (needle : List Char) : List Char → Bool
  | [] => needle.isEmpty
  | h :: t => leadMatch needle (h :: t) || subMatch needle t

/-- Digit characters of `n` (most significant first), fuel-indexed so it
reduces definitionally; mirrors decimal number-to-string conversion. -/
def natCharsF : Nat → Nat → List Char
  | 0, _ => []
  | fuel + 1, n =>
    if n < 10 then [Nat.digitChar n]
    else natCharsF fuel (n / 10) ++ [Nat.digitChar (n % 10)]

/-- Decimal digits of a natural number, most significant first. -/
def natChars (n : Nat) : List Char := natCharsF (n + 1) n

/-- Decimal rendering of an integer as JS renders a number (`${code}`). -/
def intChars (c : Int) : List Char :=
  if c < 0 then '-' :: natChars c.natAbs else natChars c.toNat

/-! ## UTF-8 transcoding

`runner.ts`'s `fd_write` decodes each iovec with `TextDecoder` and
re-encodes with `TextEncoder` before writing; we model that round trip.
The decoder follows the WHATWG algorithm (invalid sequences become
U+FFFD). -/

/-- UTF-8 encoding of one unicode code point. -/
def utf8EncodeChar (c : Nat) : List Nat :=
  if c < 128 then [c]
  else if c < 2048 then [192 + c / 64, 128 + c % 64]
  else if c < 65536 then [224 + c / 4096, 128 + (c / 64) % 64, 128 + c % 64]
  else [240 + c / 262144, 128 + (c / 4096) % 64, 128 + (c / 64) % 64, 128 + c % 64]

/-- One step of UTF-8 decoding: the code point at the head of `l` and how
many bytes it consumed (at least 1; U+FFFD on malformed input). -/
def utf8Step (l : List Nat) : Nat × Nat :=
  match l with
  | [] => (65533, 1)
  | b :: rest =>
    if b ≤ 127 then (b, 1)
    else if 194 ≤ b ∧ b ≤ 223 then
      match rest with
      | c1 :: _ =>
        if 128 ≤ c1 ∧ c1 ≤ 191 then ((b - 192) * 64 + (c1 - 128), 2)
        else (65533, 1)
      | [] => (65533, 1)
    else if 224 ≤ b ∧ b ≤ 239 then
      match rest with
      | c1 :: rest2 =>
        let lo1 := if b = 224 then 160 else 128
        let hi1 := if b = 237 then 159 else 191
        if lo1 ≤ c1 ∧ c1 ≤ hi1 then
          match rest2 with
          | c2 :: _ =>
            if 128 ≤ c2 ∧ c2 ≤ 191 then
              ((b - 224) * 4096 + (c1 - 128) * 64 + (c2 - 128), 3)
            else (65533, 2)
          | [] => (65533, 2)
        else (65533, 1)
      | [] => (65533, 1)
    else if 240 ≤ b ∧ b ≤ 244 then
      match rest with
      | c1 :: rest2 =>
        let lo1 := if b = 240 then 144 else 128
        let hi1 := if b = 244 then 143 else 191
        if lo1 ≤ c1 ∧ c1 ≤ hi1 then
          match rest2 with
          | c2 :: rest3 =>
            if 128 ≤ c2 ∧ c2 ≤ 191 then
              match rest3 with
              | c3 :: _ =>
                if 128 ≤ c3 ∧ c3 ≤ 191 then
                  ((b - 240) * 262144 + (c1 - 128) * 4096 + (c2 - 128) * 64 + (c3 - 128), 4)
                else (65533, 3)
              | [] => (65533, 3)
            else (65533, 2)
          | [] => (65533, 2)
        else (65533, 1)
      | [] => (65533, 1)
    else (65533, 1)

/-- Fuel-indexed UTF-8 decoder (fuel bounds the number of code points). -/
def utf8DecodeF : Nat → List Nat → List Nat
  | 0, _ => []
  | fuel + 1, l =>
    match l with
    | [] => []
    | _ :: _ =>
      let s := utf8Step l
      s.1 :: utf8DecodeF fuel (l.drop (max s.2 1))

/-- Decode a UTF-8 byte list to code points (WHATWG replacement policy). -/
def utf8Decode (l : List Nat) : List Nat := utf8DecodeF l.length l

/-- `TextEncoder.encode(TextDecoder.decode(bytes))`. -/
def utf8RoundTrip (l : List Nat) : List Nat :=
  (utf8Decode l).flatMap utf8EncodeChar

/-- UTF-8 bytes of a Lean string (what `TextEncoder.encode` produces). -/
def strBytes (s : String) : List Nat :=
  (s.data.map Char.toNat).flatMap utf8EncodeChar

/-! ## The JS `Number` coercion (integer fragment)

`runWasi` and `runFile` coerce string arguments with `Number(p)` /
`isNaN`.  We model the decimal-integer fragment of `Number`: an optional
sign followed by digits parses to that integer, the empty string parses
to 0 (as in JS), and anything else is NaN (`none`).  All concrete strings
appearing in the claims fall inside this fragment. -/

/-- Parse a digit sequence; `none` when a non-digit appears or the list is
empty. -/
def digitsVal : List Char → Option Nat
  | [] => none
  | [c] => if c.isDigit then some (c.toNat - 48) else none
  | c :: rest =>
    if c.isDigit then
      (digitsVal rest).map (fun v => (c.toNat - 48) * 10 ^ rest.length + v)
    else none

/-- The decimal-integer fragment of JS `Number(s)`; `none` models NaN. -/
def jsNumberInt (s : String) : Option Int :=
  match s.data with
  | [] => some 0
  | '-' :: rest => (digitsVal rest).map (fun v => -(v : Int))
  | l => (digitsVal l).map (fun v => (v : Int))

/-- A JS value crossing the host/guest call boundary: wasm exports called
from the drivers receive numbers, and `runner.ts` may also pass strings
through unchanged. -/
inductive JSValue where
  | num (n : Int)
  | str (s : String)
  deriving Repr, DecidableEq

/-- Conversion the wasm JS API applies to an i32 argument (`ToNumber`
then truncation; NaN becomes 0) — integer fragment. -/
def jsToI32 : JSValue → Int
  | .num n => n
  | .str s => (jsNumberInt s).getD 0

/-! ## Shared driver and module-model types -/

/-- Result of the guest calling `proc_exit` (or the abort hook): either
the host process terminates at once with a code, or a
`WebAssembly.RuntimeError` signal with the given message is raised. -/
inductive ProcExitResult where
  | hostExit (code : Int)
  | raise (msg : List Char)
  deriving Repr, DecidableEq

/-- What the invocation driver's `catch` does with a raised signal. -/
inductive RunOutcome where
  | ok
  | fail (msg : List Char)
  deriving Repr, DecidableEq

/-- Net effect of a start-routine invocation on the host. -/
inductive InvocationResult where
  | hostExited (code : Int)
  | completedOk
  | runError (msg : List Char)
  deriving Repr, DecidableEq

/-- A wasm export callable from JS: takes the values the driver passes
and yields `some r` (a returned number) or `none` (a void function). -/
def WasmFn : Type := List JSValue → Option Int

/-- An entry of a module instance's export table as seen through
`instance.exports[name]` / a `typeof` check. -/
inductive ExportVal where
  | fn (f : WasmFn)
  | nonFunction

/-- A module's export table (JS object: association by name). -/
def Exports : Type := List (String × ExportVal)

/-- `instance.exports[name]` followed by `typeof fn === "function"`. -/
def lookupFn (exports : Exports) (name : String) : Option WasmFn :=
  match exports.find? (fun e => e.1 = name) with
  | some (_, .fn f) => some f
  | _ => none

/-- A static export descriptor (name and kind index) as the introspection
API reports it; kind 0 is a function export. -/
structure ExportInfo where
  name : String
  kind : Nat
  deriving Repr, DecidableEq

/-! ## `utils.ts` — the emulation layer the CLI uses (`wasiImports`) -/

namespace utils

/-- `proc_exit`: exits the host for code 0, otherwise throws
`` WebAssembly.RuntimeError(`exit:${code}`) ``. -/
def proc_exit (code : Int) : ProcExitResult :=
  if code = 0 then .hostExit 0 else .raise ("exit:".data ++ intChars code)

/-- `fd_write`: iterates the iovec descriptors, writes each referenced
byte range to stdout when `fd == 1` and to stderr otherwise, stores the
accumulated length little-endian at `nwrittenPtr`, returns 0.  (The loop
never writes guest memory, so reading the descriptors up front is exact.) -/
def fd_write (fd : Int) (iovs count nwrittenPtr : Nat) (s : Machine) :
    Int × Machine :=
  let descs := iovecDescs s.mem iovs count
  let segs := descs.map (fun pr => bytesAt s.mem pr.1 pr.2)
  let total := (descs.map (fun pr => pr.2)).sum
  (0, { s with
    mem := setU32 s.mem nwrittenPtr total
    stdout := s.stdout ++ (if fd = 1 then segs.flatten else [])
    stderr := s.stderr ++ (if fd = 1 then [] else segs.flatten) })

/-- The `fd_read` loop: for each remaining iovec index it re-reads the
descriptor from (possibly already written) memory, takes up to `len`
bytes from stdin (a zero-byte read stops the loop), copies them to the
buffer and accumulates the total. -/
def fdReadLoop (iovs : Nat) :
    Nat → Nat → List Nat → List Nat → Nat → List Nat × List Nat × Nat
  | 0, _, m, st, total => (m, st, total)
  | k + 1, i, m, st, total =>
    let p := readU32 m (iovs + 8 * i)
    let l := readU32 m (iovs + 8 * i + 4)
    let chunk := st.take l
    if chunk.length = 0 then (m, st, total)
    else fdReadLoop iovs k (i + 1) (writeBytes m p chunk)
      (st.drop chunk.length) (total + chunk.length)

/-- `fd_read`: any descriptor other than 0 yields error code 28 with no
other effect; for stdin it runs the read loop, stores the total read at
`nreadPtr` and returns 0. -/
def fd_read (fd : Int) (iovs count nreadPtr : Nat) (s : Machine) :
    Int × Machine :=
  if fd ≠ 0 then (28, s)
  else
    let r := fdReadLoop iovs count 0 s.mem s.stdin 0
    (0, { s with mem := setU32 r.1 nreadPtr r.2.2, stdin := r.2.1 })

/-- `environ_get: () => 0`. -/
def environ_get (s : Machine) : Int × Machine := (0, s)

/-- `environ_sizes_get`: stores 0 at both pointers, returns 0. -/
def environ_sizes_get (countPtr bufSizePtr : Nat) (s : Machine) :
    Int × Machine :=
  (0, { s with mem := setU32 (setU32 s.mem countPtr 0) bufSizePtr 0 })

/-- `args_get: () => 0`. -/
def args_get (s : Machine) : Int × Machine := (0, s)

/-- `args_sizes_get`: stores 0 at both pointers, returns 0. -/
def args_sizes_get (countPtr bufSizePtr : Nat) (s : Machine) :
    Int × Machine :=
  (0, { s with mem := setU32 (setU32 s.mem countPtr 0) bufSizePtr 0 })

/-- `fd_fdstat_get`: filetype byte 2 (character device) for `fd <= 2`
else 3 (regular file), zero flags at +2 and zero 64-bit rights at +8 and
+16, returns 0. -/
def fd_fdstat_get (fd : Int) (ptr : Nat) (s : Machine) : Int × Machine :=
  let m1 := setByte s.mem ptr (if fd ≤ 2 then 2 else 3)
  (0, { s with mem := setU64 (setU64 (setU16 m1 (ptr + 2) 0) (ptr + 8) 0) (ptr + 16) 0 })

/-- `fd_prestat_get: () => 8`. -/
def fd_prestat_get (s : Machine) : Int × Machine := (8, s)

/-- `fd_prestat_dir_name: () => 8`. -/
def fd_prestat_dir_name (s : Machine) : Int × Machine := (8, s)

/-- `poll_oneoff: () => 28`. -/
def poll_oneoff (s : Machine) : Int × Machine := (28, s)

/-- Argument coercion in `runWasi`: `Number(p)`, with NaN replaced by 0. -/
def coerceArg (p : String) : Int :=
  match jsNumberInt p with
  | some n => n
  | none => 0

/-- Outcome of the named-export branch of `runWasi`. -/
inductive InvokeOutcome where
  | printedResult (line : String) (called : String)
  | voidCall (called : String)
  | notFound (errLine : String)
  deriving Repr

/-- The named-export branch of `runWasi`: look the name up, coerce the
trailing arguments, call the function, and print ``Result: `` plus the
value when it is not void; otherwise report the function as not found. -/
def invokeExport (exports : Exports) (name : String) (params : List String) :
    InvokeOutcome :=
  match lookupFn exports name with
  | some f =>
    match f (params.map (fun p => JSValue.num (coerceArg p))) with
    | some r => .printedResult ("Result: " ++ toString r) name
    | none => .voidCall name
  | none => .notFound ("❌ Function '" ++ name ++ "' not found.")

/-- The driver's `catch` around the start routine: a
`WebAssembly.RuntimeError` whose message contains `"exit:0"` is
swallowed, everything else is re-raised (and then reported as a run
error by the surrounding handler). -/
def driverCatch (msg : List Char) : RunOutcome :=
  if subMatch "exit:0".data msg then .ok else .fail msg

/-- Net host effect when the guest's start routine calls
`proc_exit code`: either the host exits directly, or the raised signal
goes through `driverCatch` and any re-raise becomes a reported run
error. -/
def startWithExit (code : Int) : InvocationResult :=
  match proc_exit code with
  | .hostExit k => .hostExited k
  | .raise m =>
    match driverCatch m with
    | .ok => .completedOk
    | .fail m2 => .runError m2

/-- The `env.abort` import hook of `runWasi`. -/
def abortHook : ProcExitResult := .raise "abort".data

/-- `showInfo`'s internal-name filter. -/
def isInternal (n : String) : Bool :=
  n = "_start" || n = "_initialize" || n = "abort" ||
  leadMatch "__".data n.data || leadMatch "cabi_".data n.data ||
  subMatch "config-schema".data n.data

/-- The names `showInfo` prints, in order: function-kind exports whose
name is not internal. -/
def listedExports (exps : List ExportInfo) : List String :=
  (exps.filter (fun e => e.kind = 0 && !isInternal e.name)).map
    (fun e => e.name)

/-- `showInfo`'s `found` counter after the loop. -/
def foundCount (exps : List ExportInfo) : Nat :=
  (exps.filter (fun e => e.kind = 0 && !isInternal e.name)).length

/-- Whether `showInfo` prints the explicit `(None found)` line. -/
def showsNoneFound (exps : List ExportInfo) : Bool := foundCount exps = 0

/-- `checkIsLibrary`: `none` models any read/assemble/compile failure
(the `catch` branch); on success the module is a library exactly when no
export is named `_start`. -/
def checkIsLibrary (loaded : Option (List ExportInfo)) : Bool :=
  match loaded with
  | none => false
  | some exps => !(exps.any (fun e => e.name = "_start"))

end utils

/-! ## `runner.ts` — the `createWasiImports`/`runFile` variant

Its import factory closes over the `args` list and `env` map supplied at
construction (`runFile` passes `[filePath]` and `Deno.env.toObject()`).
We model the functions under the assumption that the current instance is
set (the `if (!wasmInstance) return 1` guard does not fire). -/

namespace runnerTs

/-- `proc_exit: (code) => Deno.exit(code)` — terminates the host at once
for every code. -/
def proc_exit (code : Int) : ProcExitResult := .hostExit code

/-- `fd_write`: ignores `fd`; decodes each iovec as UTF-8 text,
re-encodes it, and writes it to standard output; stores the total of the
iovec lengths at `nwrittenPtr`; returns 0. -/
def fd_write (_fd : Int) (iovs count nwrittenPtr : Nat) (s : Machine) :
    Int × Machine :=
  let descs := iovecDescs s.mem iovs count
  let segs := descs.map (fun pr => bytesAt s.mem pr.1 pr.2)
  let total := (descs.map (fun pr => pr.2)).sum
  (0, { s with
    mem := setU32 s.mem nwrittenPtr total
    stdout := s.stdout ++ (segs.map utf8RoundTrip).flatten })

/-- `fd_read: () => 0`. -/
def fd_read (s : Machine) : Int × Machine := (0, s)

/-- `fd_fdstat_get`: writes filetype byte 2 for every descriptor (only
that byte) and returns 0. -/
def fd_fdstat_get (_fd : Int) (statPtr : Nat) (s : Machine) :
    Int × Machine :=
  (0, { s with mem := setByte s.mem statPtr 2 })

/-- `fd_prestat_get: () => 76`. -/
def fd_prestat_get (s : Machine) : Int × Machine := (76, s)

/-- `fd_prestat_dir_name: () => 76`. -/
def fd_prestat_dir_name (s : Machine) : Int × Machine := (76, s)

/-- `poll_oneoff: () => 0`. -/
def poll_oneoff (s : Machine) : Int × Machine := (0, s)

/-- `args_sizes_get`: stores the captured argument count at `argcPtr`
and the total NUL-terminated encoded length at `argvBufSizePtr`. -/
def args_sizes_get (args : List String) (argcPtr argvBufSizePtr : Nat)
    (s : Machine) : Int × Machine :=
  let totalLen := (args.map (fun a => (strBytes a).length + 1)).sum
  (0, { s with mem := setU32 (setU32 s.mem argcPtr args.length) argvBufSizePtr totalLen })

/-- `environ_sizes_get`: stores the captured environment-entry count and
the total encoded `key=value\0` length. -/
def environ_sizes_get (env : List (String × String)) (countPtr bufSizePtr : Nat)
    (s : Machine) : Int × Machine :=
  let pairs := env.map (fun kv => strBytes (kv.1 ++ "=" ++ kv.2) ++ [0])
  (0, { s with mem := setU32 (setU32 s.mem countPtr env.length) bufSizePtr (pairs.map List.length).sum })

/-- Argument conversion in `runFile`: numeric strings become numbers,
anything NaN is passed through as the original string. -/
def coerceArg (a : String) : JSValue :=
  match jsNumberInt a with
  | some n => .num n
  | none => .str a

/-- Control-flow outcome of `runFile` after instantiation. -/
inductive DispatchOutcome where
  | called (name : String) (printed : Option String)
  | ranStart
  | showedInfo
  deriving Repr

/-- Scenario 2/3 of `runFile`: run `_start` when exported, otherwise
print the no-entry-point note and fall back to `showInfo`. -/
def fallback (exports : Exports) : DispatchOutcome :=
  match lookupFn exports "_start" with
  | some _ => .ranStart
  | none => .showedInfo

/-- `runFile`'s dispatch: call the named export when the first argument
names a function export (printing a non-void result bare, with no
prefix); in every other case fall through to `_start` / `showInfo`. -/
def dispatch (exports : Exports) (args : List String) : DispatchOutcome :=
  match args with
  | [] => fallback exports
  | name :: rest =>
    match lookupFn exports name with
    | some f =>
      .called name ((f (rest.map coerceArg)).map (fun r => toString r))
    | none => fallback exports

end runnerTs

/-! ## The documented runner module (`createWasiImports`/`executeWasm`)

Its `fd_read` and `fd_fdstat_get` are verbatim copies of the
`utils.ts` ones. -/

namespace runnerDoc

/-- `fd_read` of the documented runner variant (same text as
`utils.fd_read`). -/
def fd_read (fd : Int) (iovs count nreadPtr : Nat) (s : Machine) :
    Int × Machine :=
  if fd ≠ 0 then (28, s)
  else
    let r := utils.fdReadLoop iovs count 0 s.mem s.stdin 0
    (0, { s with mem := setU32 r.1 nreadPtr r.2.2, stdin := r.2.1 })

/-- `fd_fdstat_get` of the documented runner variant (same text as
`utils.fd_fdstat_get`). -/
def fd_fdstat_get (fd : Int) (ptr : Nat) (s : Machine) : Int × Machine :=
  let m1 := setByte s.mem ptr (if fd ≤ 2 then 2 else 3)
  (0, { s with mem := setU64 (setU64 (setU16 m1 (ptr + 2) 0) (ptr + 8) 0) (ptr + 16) 0 })

/-- `environ_sizes_get` of the documented runner variant: ignores the
captured `_args`/`_env` entirely and stores two zeros. -/
def environ_sizes_get (_args : List String) (_env : List (String × String))
    (countPtr bufSizePtr : Nat) (s : Machine) : Int × Machine :=
  (0, { s with mem := setU32 (setU32 s.mem countPtr 0) bufSizePtr 0 })

/-- `args_sizes_get` of the documented runner variant. -/
def args_sizes_get (_args : List String) (_env : List (String × String))
    (countPtr bufSizePtr : Nat) (s : Machine) : Int × Machine :=
  (0, { s with mem := setU32 (setU32 s.mem countPtr 0) bufSizePtr 0 })

end runnerDoc

/-! ## Spec-side reference definitions

These are written from the specification's words (not from the source)
and are compared with the source embeddings in the claim theorems. -/

/-- Modelled from the spec: "reads bytes into each iovec buffer until a
zero-byte read or exhaustion" — iterate the (pointer, length) pairs read
up front from guest memory, take up to `len` bytes from stdin for each,
stop at a zero-byte read. -/
def specReadGo : List (Nat × Nat) → List Nat → List Nat → Nat →
    List Nat × List Nat × Nat
  | [], m, st, total => (m, st, total)
  | (p, l) :: rest, m, st, total =>
    let chunk := st.take l
    if chunk.length = 0 then (m, st, total)
    else specReadGo rest (writeBytes m p chunk) (st.drop chunk.length)
      (total + chunk.length)

/-- Modelled from the spec: the claim's closed list of internal-name
patterns for the introspection reporter. -/
def InternalNameSpec (n : String) : Prop :=
  n = "_start" ∨ n = "_initialize" ∨ n = "abort" ∨
  n.data.take 2 = "__".data ∨ n.data.take 5 = "cabi_".data ∨
  ∃ i, (n.data.drop i).take 13 = "config-schema".data

/-- Descriptors `j, j+1, …, j+k-1` of an iovec array. -/
def descsFrom (m : List Nat) (iovs j k : Nat) : List (Nat × Nat) :=
  (List.range k).map
    (fun d => (readU32 m (iovs + 8 * (j + d)), readU32 m (iovs + 8 * (j + d) + 4)))

section MarshalLemmas

theorem byteAt_setByte_ne (m : List Nat) (a p v : Nat) (h : a ≠ p) :
    byteAt (setByte m p v) a = byteAt m a := by
  unfold byteAt setByte
  induction m generalizing a p with
  | nil => simp
  | cons x xs ih =>
    cases p with
    | zero => cases a with
      | zero => omega
      | succ a' => simp [List.set]
    | succ p' =>
      cases a with
      | zero => simp [List.set]
      | succ a' => simpa [List.set] using ih a' p' (by omega)

theorem byteAt_setByte_eq (m : List Nat) (p v : Nat) (h : p < m.length) :
    byteAt (setByte m p v) p = v % 256 := by
  unfold byteAt setByte
  induction m generalizing p with
  | nil => simp at h
  | cons x xs ih =>
    cases p with
    | zero => simp [List.set]
    | succ p' => simpa [List.set] using ih p' (by simpa using h)

theorem length_setByte (m : List Nat) (p v : Nat) :
    (setByte m p v).length = m.length := by
  simp [setByte]

theorem byteAt_writeBytes_frame (bs : List Nat) (m : List Nat) (p a : Nat)
    (h : a < p ∨ p + bs.length ≤ a) :
    byteAt (writeBytes m p bs) a = byteAt m a := by
  induction bs generalizing m p with
  | nil => rfl
  | cons b rest ih =>
    unfold writeBytes
    rw [ih (setByte m p b) (p + 1) (by simp at h; omega)]
    exact byteAt_setByte_ne m a p b (by simp at h; omega)

theorem length_writeBytes (bs : List Nat) (m : List Nat) (p : Nat) :
    (writeBytes m p bs).length = m.length := by
  induction bs generalizing m p with
  | nil => rfl
  | cons b rest ih => unfold writeBytes; rw [ih, length_setByte]

theorem readU32_writeBytes_frame (bs : List Nat) (m : List Nat) (p a : Nat)
    (h : a + 4 ≤ p ∨ p + bs.length ≤ a) :
    readU32 (writeBytes m p bs) a = readU32 m a := by
  unfold readU32
  rw [byteAt_writeBytes_frame bs m p a (by omega),
    byteAt_writeBytes_frame bs m p (a + 1) (by omega),
    byteAt_writeBytes_frame bs m p (a + 2) (by omega),
    byteAt_writeBytes_frame bs m p (a + 3) (by omega)]

theorem length_bytesAt (m : List Nat) (p len : Nat) :
    (bytesAt m p len).length = len := by
  simp [bytesAt]

end MarshalLemmas

/-! ## Lemmas about the char-wise string helpers -/

theorem leadMatch_iff_take (p l : List Char) :
    leadMatch p l = true ↔ l.take p.length = p := by
  induction p generalizing l with
  | nil => simp [leadMatch]
  | cons a as ih =>
    cases l with
    | nil => simp [leadMatch]
    | cons b bs =>
      simp only [leadMatch, Bool.and_eq_true, decide_eq_true_eq, ih,
        List.length_cons, List.take_succ_cons, List.cons.injEq]
      constructor
      · rintro ⟨h1, h2⟩; exact ⟨h1.symm, h2⟩
      · rintro ⟨h1, h2⟩; exact ⟨h1.symm, h2⟩

theorem subMatch_iff_exists (p l : List Char) :
    subMatch p l = true ↔ ∃ i, (l.drop i).take p.length = p := by
  induction l with
  | nil =>
    cases p with
    | nil => simp [subMatch]
    | cons a as => simp [subMatch, List.isEmpty]
  | cons h t ih =>
    simp only [subMatch, Bool.or_eq_true, leadMatch_iff_take, ih]
    constructor
    · rintro (h1 | ⟨i, hi⟩)
      · exact ⟨0, h1⟩
      · exact ⟨i + 1, hi⟩
    · rintro ⟨i, hi⟩
      cases i with
      | zero => exact Or.inl hi
      | succ i' => exact Or.inr ⟨i', hi⟩

theorem subMatch_false_of_not_mem (c : Char) (cs hay : List Char)
    (h : c ∉ hay) : subMatch (c :: cs) hay = false := by
  induction hay with
  | nil => rfl
  | cons h1 t ih =>
    have hne : c ≠ h1 := fun hc => h (hc ▸ List.mem_cons_self h1 t)
    have hnt : c ∉ t := fun hc => h (List.mem_cons_of_mem h1 hc)
    simp [subMatch, leadMatch, hne, ih hnt]

theorem subMatch_cons_eq_false (n : List Char) (h : Char) (t : List Char) :
    subMatch n (h :: t) = false ↔
      leadMatch n (h :: t) = false ∧ subMatch n t = false := by
  simp [subMatch]

/-! ## Lemmas about decimal rendering -/

theorem natCharsF_fuel_eq : ∀ f g n, n < f → n < g →
    natCharsF f n = natCharsF g n := by
  intro f
  induction f with
  | zero => intro g n h; omega
  | succ f' ih =>
    intro g n hf hg
    cases g with
    | zero => omega
    | succ g' =>
      simp only [natCharsF]
      by_cases h10 : n < 10
      · simp [h10]
      · simp only [h10, if_false]
        rw [ih g' (n / 10) (by omega) (by omega)]

theorem natChars_ne_nil (n : Nat) : natChars n ≠ [] := by
  unfold natChars natCharsF
  by_cases h : n < 10 <;> simp [h]

theorem digitChar_isDigit (k : Nat) (h : k < 10) :
    (Nat.digitChar k).isDigit = true := by
  interval_cases k <;> decide

theorem digitChar_ne_zero (k : Nat) (h1 : k < 10) (h2 : k ≠ 0) :
    Nat.digitChar k ≠ '0' := by
  interval_cases k <;> simp_all <;> decide

theorem natChars_mem_isDigit (n : Nat) :
    ∀ c ∈ natChars n, c.isDigit = true := by
  induction n using Nat.strong_induction_on with
  | _ n ih =>
    intro c hc
    unfold natChars natCharsF at hc
    by_cases h10 : n < 10
    · simp only [h10, if_true, List.mem_singleton] at hc
      exact hc ▸ digitChar_isDigit n h10
    · simp only [h10, if_false, List.mem_append, List.mem_singleton] at hc
      rcases hc with hc | hc
      · rw [natCharsF_fuel_eq n (n / 10 + 1) (n / 10) (by omega) (by omega)] at hc
        exact ih (n / 10) (by omega) c hc
      · exact hc ▸ digitChar_isDigit (n % 10) (Nat.mod_lt n (by omega))

theorem natChars_head_ne_zero (n : Nat) (hn : n ≠ 0) :
    (natChars n).head? ≠ some '0' := by
  induction n using Nat.strong_induction_on with
  | _ n ih =>
    unfold natChars natCharsF
    by_cases h10 : n < 10
    · simp only [h10, if_true, List.head?_cons]
      intro h
      exact digitChar_ne_zero n h10 hn (by injection h)
    · simp only [h10, if_false]
      rw [natCharsF_fuel_eq n (n / 10 + 1) (n / 10) (by omega) (by omega)]
      have hrw : natCharsF (n / 10 + 1) (n / 10) = natChars (n / 10) := rfl
      rw [hrw, List.head?_append_of_ne_nil _ (natChars_ne_nil (n / 10))]
      exact ih (n / 10) (by omega) (by omega)

theorem intChars_ne_nil (z : Int) : intChars z ≠ [] := by
  unfold intChars
  by_cases h : z < 0
  · simp [h]
  · simp only [h, if_false]; exact natChars_ne_nil _

theorem intChars_head_ne_zero (z : Int) (hz : z ≠ 0) :
    (intChars z).head? ≠ some '0' := by
  unfold intChars
  by_cases h : z < 0
  · simp [h]
  · simp only [h, if_false]
    exact natChars_head_ne_zero z.toNat (by omega)

theorem intChars_mem (z : Int) :
    ∀ c ∈ intChars z, c.isDigit = true ∨ c = '-' := by
  intro c hc
  unfold intChars at hc
  by_cases h : z < 0
  · simp only [h, if_true, List.mem_cons] at hc
    rcases hc with hc | hc
    · exact Or.inr hc
    · exact Or.inl (natChars_mem_isDigit _ c hc)
  · simp only [h, if_false] at hc
    exact Or.inl (natChars_mem_isDigit _ c hc)

/-- The abnormal-exit message of a non-zero code never contains the
substring `"exit:0"`, so `driverCatch` re-raises it. -/
theorem exitMsg_no_exit_zero (z : Int) (hz : z ≠ 0) :
    subMatch "exit:0".data ("exit:".data ++ intChars z) = false := by
  obtain ⟨r0, R', hR⟩ := List.exists_cons_of_ne_nil (intChars_ne_nil z)
  have hr0 : r0 ≠ '0' := by
    intro h
    exact intChars_head_ne_zero z hz (by rw [hR, h]; rfl)
  have hmem : ∀ c ∈ intChars z, c ≠ 'e' := by
    intro c hc he
    rcases intChars_mem z c hc with h | h
    · rw [he] at h; exact absurd h (by decide)
    · rw [he] at h; exact absurd h (by decide)
  have hr0e : r0 ≠ 'e' := hmem r0 (by rw [hR]; exact List.mem_cons_self _ _)
  have hR'e : 'e' ∉ R' := by
    intro hmm
    exact hmem 'e' (by rw [hR]; exact List.mem_cons_of_mem _ hmm) rfl
  have hhay : "exit:".data ++ intChars z =
      'e' :: ('x' :: 'i' :: 't' :: ':' :: r0 :: R') := by
    rw [hR]; rfl
  rw [hhay, subMatch_cons_eq_false]
  constructor
  · simp [leadMatch, hr0.symm]
  · apply subMatch_false_of_not_mem
    simp only [List.mem_cons, not_or]
    refine ⟨by decide, by decide, by decide, by decide, fun h => hr0e h.symm, hR'e⟩

/-! ## Lemmas about the read loop -/

theorem descsFrom_zero (m : List Nat) (iovs count : Nat) :
    descsFrom m iovs 0 count = iovecDescs m iovs count := by
  unfold descsFrom iovecDescs
  exact List.map_congr_left (fun d _ => by norm_num)

theorem descsFrom_succ (m : List Nat) (iovs j k : Nat) :
    descsFrom m iovs j (k + 1) =
      (readU32 m (iovs + 8 * j), readU32 m (iovs + 8 * j + 4)) ::
        descsFrom m iovs (j + 1) k := by
  unfold descsFrom
  rw [List.range_succ_eq_map, List.map_cons, List.map_map]
  simp only [Nat.add_zero, List.cons.injEq, true_and]
  exact List.map_congr_left (fun d _ => by
    simp only [Function.comp_apply, Nat.succ_eq_add_one]
    congr 2 <;> omega)

/-- The spec read loop consumes a prefix of stdin whose length is the
bytes it adds to the running total. -/
theorem specReadGo_consumes (descs : List (Nat × Nat)) :
    ∀ m st t, ∃ d, (specReadGo descs m st t).2.1 = st.drop d ∧
      (specReadGo descs m st t).2.2 = t + d := by
  induction descs with
  | nil => intro m st t; exact ⟨0, by simp [specReadGo]⟩
  | cons pr rest ih =>
    intro m st t
    obtain ⟨p, l⟩ := pr
    simp only [specReadGo]
    by_cases hc : (st.take l).length = 0
    · exact ⟨0, by simp [hc]⟩
    · simp only [hc, if_false]
      obtain ⟨d, hd1, hd2⟩ := ih (writeBytes m p (st.take l))
        (st.drop (st.take l).length) (t + (st.take l).length)
      refine ⟨(st.take l).length + d, ?_, by omega⟩
      rw [hd1, List.drop_drop]

/-- The `fd_read` loop of `utils.ts` re-reads each descriptor from the
current memory; when no target buffer overlaps the descriptor region the
loop computes exactly what the spec loop computes over the descriptors
read up front. -/
theorem fdReadLoop_eq_spec (m₀ : List Nat) (iovs count : Nat)
    (H : ∀ pr ∈ iovecDescs m₀ iovs count,
      pr.1 + pr.2 ≤ iovs ∨ iovs + 8 * count ≤ pr.1) :
    ∀ k j m st t, j + k = count →
      (∀ a, iovs ≤ a → a < iovs + 8 * count → byteAt m a = byteAt m₀ a) →
      utils.fdReadLoop iovs k j m st t = specReadGo (descsFrom m₀ iovs j k) m st t := by
  intro k
  induction k with
  | zero => intro j m st t _ _; rfl
  | succ k' ih =>
    intro j m st t hjk hagree
    have hj : j < count := by omega
    have hp : readU32 m (iovs + 8 * j) = readU32 m₀ (iovs + 8 * j) := by
      unfold readU32
      rw [hagree (iovs + 8 * j) (by omega) (by omega),
        hagree (iovs + 8 * j + 1) (by omega) (by omega),
        hagree (iovs + 8 * j + 2) (by omega) (by omega),
        hagree (iovs + 8 * j + 3) (by omega) (by omega)]
    have hl : readU32 m (iovs + 8 * j + 4) = readU32 m₀ (iovs + 8 * j + 4) := by
      unfold readU32
      rw [hagree (iovs + 8 * j + 4) (by omega) (by omega),
        hagree (iovs + 8 * j + 4 + 1) (by omega) (by omega),
        hagree (iovs + 8 * j + 4 + 2) (by omega) (by omega),
        hagree (iovs + 8 * j + 4 + 3) (by omega) (by omega)]
    rw [descsFrom_succ]
    show utils.fdReadLoop iovs (k' + 1) j m st t = _
    unfold utils.fdReadLoop
    simp only [specReadGo, hp, hl]
    set p₀ := readU32 m₀ (iovs + 8 * j) with hp₀
    set l₀ := readU32 m₀ (iovs + 8 * j + 4) with hl₀
    by_cases hc : (st.take l₀).length = 0
    · simp [hc]
    · simp only [hc, if_false]
      have hmem : (p₀, l₀) ∈ iovecDescs m₀ iovs count := by
        unfold iovecDescs
        exact List.mem_map.mpr ⟨j, List.mem_range.mpr hj, rfl⟩
      have hdisc := H (p₀, l₀) hmem
      have hchunk : (st.take l₀).length ≤ l₀ := by
        simp [List.length_take]
      apply ih (j + 1) _ _ _ (by omega)
      intro a ha1 ha2
      rw [byteAt_writeBytes_frame _ m p₀ a (by simp at hdisc ⊢; omega)]
      exact hagree a ha1 ha2

/-! ## The iovec total length -/

theorem iovec_total_length (m : List Nat) (iovs count : Nat) :
    ((iovecDescs m iovs count).map (fun pr => pr.2)).sum =
      (iovecBytes m iovs count).length := by
  unfold iovecBytes iovecSegs
  rw [List.length_flatten, List.map_map]
  congr 1
  exact List.map_congr_left (fun pr _ => (length_bytesAt m pr.1 pr.2).symm)

/-! ## Claim theorems -/

/-- C1 (amended, utils layer): for every iovec array whose referenced
segments concatenate to `b`, `utils.ts`'s `fd_write` returns 0, appends
`b` to standard output when `fd = 1` and to standard error otherwise,
stores `b.length` (the sum of the iovec lengths) little-endian at the
output pointer, and touches nothing else — in particular the observed
bytes depend only on `b`, not on how it was partitioned into segments.
(`runner.ts`'s `fd_write` instead writes everything to standard output,
see the counterexample.) -/
theorem fd_write_utils_stream_and_total (fd : Int) (iovs count wptr : Nat)
    (s : Machine) (b : List Nat) (h : iovecBytes s.mem iovs count = b) :
    (utils.fd_write fd iovs count wptr s).1 = 0 ∧
    (utils.fd_write fd iovs count wptr s).2.stdout =
      s.stdout ++ (if fd = 1 then b else []) ∧
    (utils.fd_write fd iovs count wptr s).2.stderr =
      s.stderr ++ (if fd = 1 then [] else b) ∧
    (utils.fd_write fd iovs count wptr s).2.mem = setU32 s.mem wptr b.length ∧
    (utils.fd_write fd iovs count wptr s).2.stdin = s.stdin := by
  subst h
  unfold utils.fd_write
  refine ⟨rfl, rfl, rfl, ?_, rfl⟩
  simp only [iovec_total_length]

/-- C1 witness: a concrete two-segment iovec array carrying the bytes
`[72, 73, 33]`, written to fd 1. -/
theorem fd_write_utils_stream_and_total_witness :
    (utils.fd_write 1 0 2 20
      ⟨[16, 0, 0, 0, 2, 0, 0, 0, 19, 0, 0, 0, 1, 0, 0, 0, 72, 73, 0, 33, 0, 0, 0, 0],
        [], [], []⟩).1 = 0 ∧
    (utils.fd_write 1 0 2 20
      ⟨[16, 0, 0, 0, 2, 0, 0, 0, 19, 0, 0, 0, 1, 0, 0, 0, 72, 73, 0, 33, 0, 0, 0, 0],
        [], [], []⟩).2.stdout = [72, 73, 33] := by
  have h := fd_write_utils_stream_and_total 1 0 2 20
    ⟨[16, 0, 0, 0, 2, 0, 0, 0, 19, 0, 0, 0, 1, 0, 0, 0, 72, 73, 0, 33, 0, 0, 0, 0],
      [], [], []⟩ [72, 73, 33] (by decide)
  refine ⟨h.1, ?_⟩
  rw [h.2.1]
  rfl

/-- C1 counterexample: `runner.ts`'s `fd_write` ignores the descriptor —
with `fd = 2` the claim requires the byte 72 on standard error, but the
call leaves standard error empty and writes the byte to standard output
(while still returning 0). -/
theorem fd_write_runnerTs_stdout_only :
    (runnerTs.fd_write 2 0 1 12
      ⟨[8, 0, 0, 0, 1, 0, 0, 0, 72, 0, 0, 0, 0, 0, 0, 0], [], [], []⟩).2.stderr = [] ∧
    (runnerTs.fd_write 2 0 1 12
      ⟨[8, 0, 0, 0, 1, 0, 0, 0, 72, 0, 0, 0, 0, 0, 0, 0], [], [], []⟩).2.stdout = [72] ∧
    (runnerTs.fd_write 2 0 1 12
      ⟨[8, 0, 0, 0, 1, 0, 0, 0, 72, 0, 0, 0, 0, 0, 0, 0], [], [], []⟩).1 = 0 := by
  refine ⟨rfl, ?_, rfl⟩
  decide

/-- C2 (amended, utils layer): in the emulation layer the CLI uses, the
argument/environment queries are built without reference to any host
argument list or environment: `args_sizes_get`/`environ_sizes_get`
store 0 at both output pointers and return 0, and
`args_get`/`environ_get` write nothing and return 0 — so the
guest-observable result of all four calls is the same constant function
of the machine state on every run (no-leak noninterference).
(`runner.ts`'s variant instead marshals the supplied arguments and
environment, see the counterexample.) -/
theorem wasi_args_environ_report_zero :
    (∀ cPtr bPtr s, utils.environ_sizes_get cPtr bPtr s =
      (0, { s with mem := setU32 (setU32 s.mem cPtr 0) bPtr 0 })) ∧
    (∀ cPtr bPtr s, utils.args_sizes_get cPtr bPtr s =
      (0, { s with mem := setU32 (setU32 s.mem cPtr 0) bPtr 0 })) ∧
    (∀ s, utils.environ_get s = (0, s)) ∧
    (∀ s, utils.args_get s = (0, s)) :=
  ⟨fun _ _ _ => rfl, fun _ _ _ => rfl, fun _ => rfl, fun _ => rfl⟩

/-- C2 counterexample: `runner.ts`'s `environ_sizes_get` reports the
captured host environment — with one entry `A=B` it stores count 1 and
buffer size 4 (not 0 and 0), and two runs differing only in the host
environment produce different guest-observable memory. -/
theorem environ_sizes_runnerTs_leaks :
    readU32 ((runnerTs.environ_sizes_get [("A", "B")] 0 4
      ⟨[0, 0, 0, 0, 0, 0, 0, 0], [], [], []⟩).2.mem) 0 = 1 ∧
    readU32 ((runnerTs.environ_sizes_get [("A", "B")] 0 4
      ⟨[0, 0, 0, 0, 0, 0, 0, 0], [], [], []⟩).2.mem) 4 = 4 ∧
    readU32 ((runnerTs.environ_sizes_get [] 0 4
      ⟨[0, 0, 0, 0, 0, 0, 0, 0], [], [], []⟩).2.mem) 0 = 0 ∧
    readU32 ((runnerTs.args_sizes_get ["prog"] 0 4
      ⟨[0, 0, 0, 0, 0, 0, 0, 0], [], [], []⟩).2.mem) 0 = 1 := by
  decide

/-- C3 (amended, utils layer): `utils.ts`'s `proc_exit` terminates the
host immediately exactly for code 0 and raises the abnormal-exit signal
`` `exit:${code}` `` for every non-zero code; the invocation driver
swallows any signal whose message contains `"exit:0"` as successful
termination and re-raises every other signal — so a non-zero exit code
becomes a reported run error and the abort marker is re-raised.
(`runner.ts`'s `proc_exit` instead terminates the host immediately for
every code, see the counterexample.) -/
theorem proc_exit_utils_driver_behaviour :
    (utils.proc_exit 0 = ProcExitResult.hostExit 0) ∧
    (∀ c : Int, c ≠ 0 →
      utils.proc_exit c = ProcExitResult.raise ("exit:".data ++ intChars c)) ∧
    (∀ c : Int, c ≠ 0 →
      utils.startWithExit c = InvocationResult.runError ("exit:".data ++ intChars c)) ∧
    (∀ m, subMatch "exit:0".data m = true → utils.driverCatch m = RunOutcome.ok) ∧
    (utils.abortHook = ProcExitResult.raise "abort".data ∧
      utils.driverCatch "abort".data = RunOutcome.fail "abort".data) ∧
    (∀ c : Int, runnerTs.proc_exit c = ProcExitResult.hostExit c) := by
  have hraise : ∀ c : Int, c ≠ 0 →
      utils.proc_exit c = ProcExitResult.raise ("exit:".data ++ intChars c) := by
    intro c hc
    unfold utils.proc_exit
    rw [if_neg hc]
  have hdc : ∀ c : Int, c ≠ 0 →
      utils.driverCatch ("exit:".data ++ intChars c) =
        RunOutcome.fail ("exit:".data ++ intChars c) := by
    intro c hc
    unfold utils.driverCatch
    rw [exitMsg_no_exit_zero c hc]
    simp
  refine ⟨rfl, hraise, ?_, ?_, ⟨rfl, by decide⟩, fun _ => rfl⟩
  · intro c hc
    unfold utils.startWithExit
    rw [hraise c hc]
    show (match utils.driverCatch ("exit:".data ++ intChars c) with
      | RunOutcome.ok => InvocationResult.completedOk
      | RunOutcome.fail m2 => InvocationResult.runError m2) =
      InvocationResult.runError ("exit:".data ++ intChars c)
    rw [hdc c hc]
  · intro m hm
    unfold utils.driverCatch
    rw [if_pos hm]

/-- C3 witness: code 5 raises `exit:5` and the driver reports it as a
run error; a message containing `exit:0` is swallowed. -/
theorem proc_exit_utils_driver_behaviour_witness :
    utils.proc_exit 5 = ProcExitResult.raise ("exit:".data ++ intChars 5) ∧
    utils.startWithExit 5 = InvocationResult.runError ("exit:".data ++ intChars 5) ∧
    utils.driverCatch "exit:0".data = RunOutcome.ok :=
  ⟨proc_exit_utils_driver_behaviour.2.1 5 (by decide),
    proc_exit_utils_driver_behaviour.2.2.1 5 (by decide),
    proc_exit_utils_driver_behaviour.2.2.2.1 "exit:0".data (by decide)⟩

/-- C3 counterexample: `runner.ts`'s `proc_exit` terminates the host
immediately for the non-zero code 5 instead of raising an abnormal-exit
signal, while the utils layer raises; the claim's "terminates iff
code == 0, raises otherwise" is false of the cited `runner.ts` line. -/
theorem proc_exit_runnerTs_exits_for_nonzero :
    runnerTs.proc_exit 5 = ProcExitResult.hostExit 5 ∧
    utils.proc_exit 5 ≠ ProcExitResult.hostExit 5 := by
  decide

/-- C4 (amended): `fd_read` (identical in `utils.ts` and the documented
runner variant) returns error code 28 — not 8 — for every descriptor
other than 0, leaving the machine (guest memory, streams, stdin)
completely unchanged; for descriptor 0, provided no iovec target buffer
overlaps the descriptor array itself, it reads stdin into each iovec
buffer in order until a zero-byte read or exhaustion of the iovec list
(exactly the spec loop `specReadGo` over the descriptors read up front
from guest memory), stores the total bytes read little-endian at the
output pointer, consumes exactly that prefix of stdin, and returns 0. -/
theorem fd_read_codes_and_loop :
    (∀ (fd : Int) (iovs count p : Nat) (s : Machine), fd ≠ 0 →
      utils.fd_read fd iovs count p s = (28, s)) ∧
    (∀ (iovs count p : Nat) (s : Machine),
      (∀ pr ∈ iovecDescs s.mem iovs count,
        pr.1 + pr.2 ≤ iovs ∨ iovs + 8 * count ≤ pr.1) →
      utils.fd_read 0 iovs count p s =
        (0, { s with
          mem := setU32 (specReadGo (iovecDescs s.mem iovs count) s.mem s.stdin 0).1
            p (specReadGo (iovecDescs s.mem iovs count) s.mem s.stdin 0).2.2
          stdin := (specReadGo (iovecDescs s.mem iovs count) s.mem s.stdin 0).2.1 })) ∧
    (∀ (descs : List (Nat × Nat)) (m st : List Nat), ∃ d,
      (specReadGo descs m st 0).2.1 = st.drop d ∧
      (specReadGo descs m st 0).2.2 = d) ∧
    (∀ (fd : Int) (iovs count p : Nat) (s : Machine),
      runnerDoc.fd_read fd iovs count p s = utils.fd_read fd iovs count p s) := by
  refine ⟨?_, ?_, ?_, fun _ _ _ _ _ => rfl⟩
  · intro fd iovs count p s hfd
    unfold utils.fd_read
    rw [if_pos hfd]
  · intro iovs count p s H
    unfold utils.fd_read
    rw [if_neg (by simp)]
    have h := fdReadLoop_eq_spec s.mem iovs count H count 0 s.mem s.stdin 0
      (by omega) (fun _ _ _ => rfl)
    rw [descsFrom_zero] at h
    rw [h]
  · intro descs m st
    obtain ⟨d, h1, h2⟩ := specReadGo_consumes descs m st 0
    exact ⟨d, h1, by omega⟩

/-- C4 witness: descriptor 1 is rejected with 28 on an empty machine;
on descriptor 0 a one-iovec array (pointer 8, length 2) reads the first
two stdin bytes into memory, stores total 2 at pointer 12 and leaves
stdin `[7]`. -/
theorem fd_read_codes_and_loop_witness :
    utils.fd_read 1 0 0 0 ⟨[], [], [], []⟩ = (28, ⟨[], [], [], []⟩) ∧
    utils.fd_read 0 0 1 12
      ⟨[8, 0, 0, 0, 2, 0, 0, 0, 0, 0, 0, 0, 0, 0, 0, 0], [], [], [5, 6, 7]⟩ =
      (0, ⟨[8, 0, 0, 0, 2, 0, 0, 0, 5, 6, 0, 0, 2, 0, 0, 0], [], [], [7]⟩) := by
  constructor
  · exact fd_read_codes_and_loop.1 1 0 0 0 ⟨[], [], [], []⟩ (by decide)
  · have h := fd_read_codes_and_loop.2.1 0 1 12
      ⟨[8, 0, 0, 0, 2, 0, 0, 0, 0, 0, 0, 0, 0, 0, 0, 0], [], [], [5, 6, 7]⟩
      (by decide)
    rw [h]
    decide

/-- C4 counterexample: for the non-stdin descriptor 1, `fd_read` returns
28, not the claimed "bad file descriptor" code 8 (in both `utils.ts` and
the documented runner variant). -/
theorem fd_read_nonzero_fd_not_8 :
    (utils.fd_read 1 0 0 0 ⟨[], [], [], []⟩).1 = 28 ∧
    (utils.fd_read 1 0 0 0 ⟨[], [], [], []⟩).1 ≠ 8 ∧
    (runnerDoc.fd_read 1 0 0 0 ⟨[], [], [], []⟩).1 = 28 := by
  decide

/-- C5 (amended): the unimplemented calls are constant functions leaving
guest memory (and the whole machine) unchanged, but their codes are not
uniformly 28: in `utils.ts`, `fd_prestat_get` and `fd_prestat_dir_name`
return 8 while `poll_oneoff` returns 28; in `runner.ts` the prestat
calls return 76 and `poll_oneoff` returns 0. -/
theorem unsupported_calls_return_codes :
    (∀ s, utils.fd_prestat_get s = (8, s)) ∧
    (∀ s, utils.fd_prestat_dir_name s = (8, s)) ∧
    (∀ s, utils.poll_oneoff s = (28, s)) ∧
    (∀ s, runnerTs.fd_prestat_get s = (76, s)) ∧
    (∀ s, runnerTs.fd_prestat_dir_name s = (76, s)) ∧
    (∀ s, runnerTs.poll_oneoff s = (0, s)) :=
  ⟨fun _ => rfl, fun _ => rfl, fun _ => rfl, fun _ => rfl, fun _ => rfl,
    fun _ => rfl⟩

/-- C5 counterexample: `utils.ts`'s `fd_prestat_get` returns 8, not the
claimed 28, and `runner.ts`'s `poll_oneoff` returns 0, not 28. -/
theorem fd_prestat_get_returns_8_not_28 :
    (utils.fd_prestat_get ⟨[], [], [], []⟩).1 = 8 ∧
    (utils.fd_prestat_get ⟨[], [], [], []⟩).1 ≠ 28 ∧
    (runnerTs.poll_oneoff ⟨[], [], [], []⟩).1 = 0 ∧
    (runnerTs.poll_oneoff ⟨[], [], [], []⟩).1 ≠ 28 := by
  decide

/-- C6 (amended, utils layer): `runWasi` coerces every trailing string
argument with `Number`, replacing NaN by 0, invokes the named export on
the coerced numbers and prints ``Result: `` followed by the value for a
non-void call; invoking `add` with `["2", "3"]` on a module whose `add`
sums its operands yields 5 and prints `Result: 5`.  `runner.ts`'s
`runFile` variant instead passes non-numeric strings through unchanged
(and prints the bare value without the `Result:` prefix). -/
theorem invoke_coercion_and_add_scenario :
    (∀ p : String, utils.coerceArg p = (jsNumberInt p).getD 0) ∧
    (utils.invokeExport
      [("add", ExportVal.fn (fun l =>
        some (jsToI32 (l.getD 0 (.num 0)) + jsToI32 (l.getD 1 (.num 0)))))]
      "add" ["2", "3"] = utils.InvokeOutcome.printedResult "Result: 5" "add") ∧
    (∀ a : String, jsNumberInt a = none → runnerTs.coerceArg a = JSValue.str a) := by
  refine ⟨?_, rfl, ?_⟩
  · intro p
    unfold utils.coerceArg
    cases h : jsNumberInt p <;> simp
  · intro a h
    unfold runnerTs.coerceArg
    rw [h]

/-- C6 witness: `"x!"` is NaN under `Number` and `runner.ts` passes it
through as the string itself. -/
theorem invoke_coercion_and_add_scenario_witness :
    jsNumberInt "x!" = none ∧ runnerTs.coerceArg "x!" = JSValue.str "x!" :=
  ⟨by decide, invoke_coercion_and_add_scenario.2.2 "x!" (by decide)⟩

/-- C6 counterexample: `runner.ts` does not coerce the non-numeric
string `"abc"` to 0 — it passes the string through unchanged — and its
`add` invocation prints the bare value `5`, not `Result: 5`. -/
theorem runnerTs_coercion_keeps_strings :
    runnerTs.coerceArg "abc" = JSValue.str "abc" ∧
    JSValue.str "abc" ≠ JSValue.num 0 ∧
    runnerTs.dispatch
      [("add", ExportVal.fn (fun l =>
        some (jsToI32 (l.getD 0 (.num 0)) + jsToI32 (l.getD 1 (.num 0)))))]
      ["add", "2", "3"] =
      runnerTs.DispatchOutcome.called "add" (some "5") := by
  refine ⟨rfl, by decide, rfl⟩

/-- `showInfo`'s boolean internal-name filter agrees with the claim's
pattern list. -/
theorem isInternal_iff (n : String) :
    utils.isInternal n = true ↔ InternalNameSpec n := by
  unfold utils.isInternal InternalNameSpec
  simp only [Bool.or_eq_true, decide_eq_true_eq, leadMatch_iff_take,
    subMatch_iff_exists]
  rw [show ("__".data).length = 2 from rfl,
    show ("cabi_".data).length = 5 from rfl,
    show ("config-schema".data).length = 13 from rfl]
  tauto

/-- C7 (confirmed): the introspection reporter lists an export name iff
some export of the module has that name, is function-kind (kind 0), and
the name matches none of the internal patterns (exactly `_start`,
`_initialize` or `abort`; a `__` or `cabi_` prefix; or the substring
`config-schema`); and the explicit `(None found)` state is emitted
exactly when no export qualifies. -/
theorem showInfo_lists_iff_public_function :
    ∀ (exps : List ExportInfo) (e : String),
      (e ∈ utils.listedExports exps ↔
        ∃ ei ∈ exps, ei.kind = 0 ∧ ei.name = e ∧ ¬ InternalNameSpec e) ∧
      (utils.showsNoneFound exps = true ↔ utils.listedExports exps = []) := by
  intro exps e
  constructor
  · constructor
    · intro hmem
      rcases List.mem_map.mp hmem with ⟨ei, hf, hname⟩
      rcases List.mem_filter.mp hf with ⟨hin, hp⟩
      simp only [Bool.and_eq_true, decide_eq_true_eq, Bool.not_eq_true'] at hp
      refine ⟨ei, hin, hp.1, hname, ?_⟩
      intro hspec
      have ht : utils.isInternal ei.name = true :=
        (isInternal_iff ei.name).mpr (hname ▸ hspec)
      rw [hp.2] at ht
      exact Bool.false_ne_true ht
    · rintro ⟨ei, hin, hkind, hname, hnot⟩
      apply List.mem_map.mpr
      refine ⟨ei, List.mem_filter.mpr ⟨hin, ?_⟩, hname⟩
      have hfalse : utils.isInternal ei.name = false := by
        cases h : utils.isInternal ei.name
        · rfl
        · exact absurd (hname ▸ (isInternal_iff ei.name).mp h) hnot
      simp [hkind, hfalse]
  · unfold utils.showsNoneFound utils.foundCount utils.listedExports
    simp [List.length_eq_zero]

/-! ## Byte-level facts about the multi-byte stores -/

theorem byteAt_setU16_ne (m : List Nat) (a v x : Nat)
    (h : x < a ∨ a + 2 ≤ x) : byteAt (setU16 m a v) x = byteAt m x := by
  unfold setU16
  rw [byteAt_setByte_ne _ _ _ _ (by omega), byteAt_setByte_ne _ _ _ _ (by omega)]

theorem byteAt_setU32_ne (m : List Nat) (a v x : Nat)
    (h : x < a ∨ a + 4 ≤ x) : byteAt (setU32 m a v) x = byteAt m x := by
  unfold setU32
  rw [byteAt_setByte_ne _ _ _ _ (by omega), byteAt_setByte_ne _ _ _ _ (by omega),
    byteAt_setByte_ne _ _ _ _ (by omega), byteAt_setByte_ne _ _ _ _ (by omega)]

theorem byteAt_setU64_ne (m : List Nat) (a v x : Nat)
    (h : x < a ∨ a + 8 ≤ x) : byteAt (setU64 m a v) x = byteAt m x := by
  unfold setU64
  rw [byteAt_setU32_ne _ _ _ _ (by omega), byteAt_setU32_ne _ _ _ _ (by omega)]

theorem length_setU16 (m : List Nat) (a v : Nat) :
    (setU16 m a v).length = m.length := by
  unfold setU16
  rw [length_setByte, length_setByte]

theorem length_setU32 (m : List Nat) (a v : Nat) :
    (setU32 m a v).length = m.length := by
  unfold setU32
  rw [length_setByte, length_setByte, length_setByte, length_setByte]

theorem length_setU64 (m : List Nat) (a v : Nat) :
    (setU64 m a v).length = m.length := by
  unfold setU64
  rw [length_setU32, length_setU32]

theorem byteAt_setU16_zero (m : List Nat) (a x : Nat) (h1 : a ≤ x)
    (h2 : x < a + 2) (hl : x < m.length) : byteAt (setU16 m a 0) x = 0 := by
  unfold setU16
  rcases (show x = a ∨ x = a + 1 by omega) with h | h <;> subst h
  · rw [byteAt_setByte_ne _ _ _ _ (by omega), byteAt_setByte_eq _ _ _ hl]
  · rw [byteAt_setByte_eq]
    rw [length_setByte]
    exact hl

theorem byteAt_setU32_zero (m : List Nat) (a x : Nat) (h1 : a ≤ x)
    (h2 : x < a + 4) (hl : x < m.length) : byteAt (setU32 m a 0) x = 0 := by
  unfold setU32
  rcases (show x = a ∨ x = a + 1 ∨ x = a + 2 ∨ x = a + 3 by omega)
    with h | h | h | h <;> subst h
  · rw [byteAt_setByte_ne _ _ _ _ (by omega), byteAt_setByte_ne _ _ _ _ (by omega),
      byteAt_setByte_ne _ _ _ _ (by omega), byteAt_setByte_eq _ _ _ hl]
  · rw [byteAt_setByte_ne _ _ _ _ (by omega), byteAt_setByte_ne _ _ _ _ (by omega),
      byteAt_setByte_eq]
    rw [length_setByte]
    exact hl
  · rw [byteAt_setByte_ne _ _ _ _ (by omega), byteAt_setByte_eq]
    rw [length_setByte, length_setByte]
    exact hl
  · rw [byteAt_setByte_eq]
    rw [length_setByte, length_setByte, length_setByte]
    exact hl

theorem byteAt_setU64_zero (m : List Nat) (a x : Nat) (h1 : a ≤ x)
    (h2 : x < a + 8) (hl : x < m.length) : byteAt (setU64 m a 0) x = 0 := by
  unfold setU64
  rcases (show x < a + 4 ∨ a + 4 ≤ x by omega) with h | h
  · rw [byteAt_setU32_ne _ _ _ _ (by omega)]
    exact byteAt_setU32_zero m a x h1 h hl
  · rw [byteAt_setU32_zero _ _ _ (by omega) (by omega)]
    rw [length_setU32]
    exact hl

set_option maxHeartbeats 2000000 in
/-- C8 (amended): `utils.ts`'s `fd_fdstat_get` (and the identical
documented runner variant) returns 0, writes filetype 2 (character
device) when `fd ≤ 2` — including the signed negative descriptors the
JS boundary produces — and 3 (regular file) when `fd > 2`, zeroes the
flags (offsets +2, +3) and both 64-bit rights words (offsets +8 … +23),
and leaves every other byte unchanged.  `runner.ts`'s variant instead
writes filetype 2 for every descriptor and touches only that byte. -/
theorem fd_fdstat_get_filetypes :
    (∀ (fd : Int) (ptr : Nat) (s : Machine),
      (utils.fd_fdstat_get fd ptr s).1 = 0 ∧
      (ptr + 24 ≤ s.mem.length →
        byteAt (utils.fd_fdstat_get fd ptr s).2.mem ptr =
          (if fd ≤ 2 then 2 else 3) ∧
        byteAt (utils.fd_fdstat_get fd ptr s).2.mem (ptr + 2) = 0 ∧
        byteAt (utils.fd_fdstat_get fd ptr s).2.mem (ptr + 3) = 0 ∧
        (∀ k, 8 ≤ k → k < 24 →
          byteAt (utils.fd_fdstat_get fd ptr s).2.mem (ptr + k) = 0)) ∧
      (∀ a, a ≠ ptr → ¬(ptr + 2 ≤ a ∧ a < ptr + 4) →
        ¬(ptr + 8 ≤ a ∧ a < ptr + 24) →
        byteAt (utils.fd_fdstat_get fd ptr s).2.mem a = byteAt s.mem a)) ∧
    (∀ (fd : Int) (ptr : Nat) (s : Machine),
      runnerTs.fd_fdstat_get fd ptr s = (0, { s with mem := setByte s.mem ptr 2 })) ∧
    (∀ (fd : Int) (ptr : Nat) (s : Machine),
      runnerDoc.fd_fdstat_get fd ptr s = utils.fd_fdstat_get fd ptr s) := by
  refine ⟨?_, fun _ _ _ => rfl, fun _ _ _ => rfl⟩
  intro fd ptr s
  unfold utils.fd_fdstat_get
  refine ⟨rfl, ?_, ?_⟩
  · intro hlen
    have hl1 : (setByte s.mem ptr (if fd ≤ 2 then 2 else 3)).length = s.mem.length :=
      length_setByte _ _ _
    have hl2 : (setU16 (setByte s.mem ptr (if fd ≤ 2 then 2 else 3)) (ptr + 2) 0).length
        = s.mem.length := by rw [length_setU16, hl1]
    have hl3 : (setU64 (setU16 (setByte s.mem ptr (if fd ≤ 2 then 2 else 3))
        (ptr + 2) 0) (ptr + 8) 0).length = s.mem.length := by
      rw [length_setU64, hl2]
    refine ⟨?_, ?_, ?_, ?_⟩
    · rw [byteAt_setU64_ne _ _ _ _ (by omega), byteAt_setU64_ne _ _ _ _ (by omega),
        byteAt_setU16_ne _ _ _ _ (by omega),
        byteAt_setByte_eq s.mem ptr (if fd ≤ 2 then 2 else 3) (by omega)]
      rcases le_or_lt fd 2 with h | h
      · rw [if_pos h]
      · rw [if_neg (by omega)]
    · rw [byteAt_setU64_ne _ _ _ _ (by omega), byteAt_setU64_ne _ _ _ _ (by omega)]
      exact byteAt_setU16_zero _ _ _ (by omega) (by omega)
        (by rw [length_setByte]; omega)
    · rw [byteAt_setU64_ne _ _ _ _ (by omega), byteAt_setU64_ne _ _ _ _ (by omega)]
      exact byteAt_setU16_zero _ _ _ (by omega) (by omega)
        (by rw [length_setByte]; omega)
    · intro k hk1 hk2
      rcases (show k < 16 ∨ 16 ≤ k by omega) with h | h
      · rw [byteAt_setU64_ne _ _ _ _ (by omega)]
        exact byteAt_setU64_zero _ _ _ (by omega) (by omega)
          (by rw [length_setU16, length_setByte]; omega)
      · exact byteAt_setU64_zero _ _ _ (by omega) (by omega)
          (by rw [length_setU64, length_setU16, length_setByte]; omega)
  · intro a h1 h2 h3
    rw [byteAt_setU64_ne _ _ _ _ (by omega), byteAt_setU64_ne _ _ _ _ (by omega),
      byteAt_setU16_ne _ _ _ _ (by omega), byteAt_setByte_ne _ _ _ _ (by omega)]

/-- C8 witness: descriptor 5 at pointer 0 on a 24-byte memory of 7s:
filetype 3, zeroed flags and rights, untouched byte at offset 4. -/
theorem fd_fdstat_get_filetypes_witness :
    (utils.fd_fdstat_get 5 0 ⟨List.replicate 24 7, [], [], []⟩).1 = 0 ∧
    byteAt (utils.fd_fdstat_get 5 0 ⟨List.replicate 24 7, [], [], []⟩).2.mem 0 = 3 ∧
    byteAt (utils.fd_fdstat_get 5 0 ⟨List.replicate 24 7, [], [], []⟩).2.mem 2 = 0 ∧
    byteAt (utils.fd_fdstat_get 5 0 ⟨List.replicate 24 7, [], [], []⟩).2.mem 8 = 0 ∧
    byteAt (utils.fd_fdstat_get 5 0 ⟨List.replicate 24 7, [], [], []⟩).2.mem 4 = 7 := by
  have h := fd_fdstat_get_filetypes.1 5 0 ⟨List.replicate 24 7, [], [], []⟩
  have hb := h.2.1 (by simp)
  refine ⟨h.1, ?_, by simpa using hb.2.1, by simpa using hb.2.2.2 8 (by omega) (by omega), ?_⟩
  · have := hb.1
    simpa using this
  · have := h.2.2 4 (by omega) (by omega) (by omega)
    simp only [Nat.zero_add] at this
    rw [this]
    decide

/-- C8 counterexample: `runner.ts`'s `fd_fdstat_get` reports descriptor
5 as a character device (filetype 2, claim demands regular-file 3), and
`utils.ts` reports the signed descriptor −1 (guest value 0xFFFFFFFF) as
a character device too, though the claim allows type 2 only for 0, 1, 2. -/
theorem fd_fdstat_runnerTs_always_chardev :
    byteAt ((runnerTs.fd_fdstat_get 5 0 ⟨[9, 9], [], [], []⟩).2.mem) 0 = 2 ∧
    (2 : Nat) ≠ 3 ∧
    byteAt ((utils.fd_fdstat_get (-1) 0
      ⟨List.replicate 24 7, [], [], []⟩).2.mem) 0 = 2 := by
  refine ⟨by decide, by decide, ?_⟩
  decide

/-- C9 (amended, utils layer): when the requested name is not bound to a
function in the export table, `runWasi` invokes nothing, prints nothing
to standard output, and reports the function-not-found error (the
`FunctionNotFoundError` path, printed on standard error, aborting the
invocation).  `runner.ts`'s `runFile` instead falls through to its
default dispatch — running `_start` or printing the module info — with
no error at all. -/
theorem missing_export_reported_not_invoked :
    (∀ (exports : Exports) (name : String) (params : List String),
      lookupFn exports name = none →
      utils.invokeExport exports name params =
        utils.InvokeOutcome.notFound ("❌ Function '" ++ name ++ "' not found.")) ∧
    (∀ (exports : Exports) (name : String) (rest : List String),
      lookupFn exports name = none →
      runnerTs.dispatch exports (name :: rest) = runnerTs.fallback exports) := by
  constructor
  · intro exports name params h
    unfold utils.invokeExport
    rw [h]
  · intro exports name rest h
    unfold runnerTs.dispatch
    show (match lookupFn exports name with
      | some f => runnerTs.DispatchOutcome.called name
          (Option.map (fun r => toString r) (f (List.map runnerTs.coerceArg rest)))
      | none => runnerTs.fallback exports) = runnerTs.fallback exports
    rw [h]

/-- C9 witness: looking up `missing` in a table holding only `_start`
yields the not-found report in the utils layer and the `_start` fallback
in `runner.ts`. -/
theorem missing_export_reported_not_invoked_witness :
    utils.invokeExport [("_start", ExportVal.fn (fun _ => none))] "missing" [] =
      utils.InvokeOutcome.notFound ("❌ Function '" ++ "missing" ++ "' not found.") ∧
    runnerTs.dispatch [("_start", ExportVal.fn (fun _ => none))] ["missing"] =
      runnerTs.fallback [("_start", ExportVal.fn (fun _ => none))] :=
  ⟨missing_export_reported_not_invoked.1 _ "missing" [] rfl,
    missing_export_reported_not_invoked.2 _ "missing" [] rfl⟩

/-- C9 counterexample: in `runner.ts`, asking for the absent export
`missing` on a module exporting `_start` does not fail — it silently
invokes `_start` — so "no export is invoked" and "fails with
FunctionNotFoundError" are both false of the cited `runFile` lines. -/
theorem runnerTs_missing_name_falls_back :
    runnerTs.dispatch [("_start", ExportVal.fn (fun _ => none))] ["missing"] =
      runnerTs.DispatchOutcome.ranStart := rfl

/-- C10 (confirmed): `checkIsLibrary` returns `true` exactly when the
module's bytes load and compile (`some exps`) and no export is named
`_start`; every read/assembly/compile failure (`none`) yields `false`
instead of propagating. -/
theorem checkIsLibrary_iff_no_start_export :
    ∀ loaded : Option (List ExportInfo),
      utils.checkIsLibrary loaded = true ↔
        ∃ exps, loaded = some exps ∧ ∀ e ∈ exps, e.name ≠ "_start" := by
  intro loaded
  cases loaded with
  | none => simp [utils.checkIsLibrary]
  | some exps =>
    simp only [utils.checkIsLibrary, Bool.not_eq_true', List.any_eq_false,
      decide_eq_true_eq, Option.some.injEq]
    constructor
    · intro h
      exact ⟨exps, rfl, h⟩
    · rintro ⟨exps2, hq, h⟩
      cases hq
      exact h

/-- C7 witness: on a table with a public `add`, an internal `_start` and
a `__heap` glue export, exactly `add` is listed; a table with only
internal exports shows the explicit `(None found)` state. -/
theorem showInfo_lists_iff_public_function_witness :
    "add" ∈ utils.listedExports [⟨"add", 0⟩, ⟨"_start", 0⟩, ⟨"__heap", 0⟩] ∧
    utils.showsNoneFound [⟨"_start", 0⟩, ⟨"cabi_post", 0⟩] = true := by
  constructor
  · exact (showInfo_lists_iff_public_function
      [⟨"add", 0⟩, ⟨"_start", 0⟩, ⟨"__heap", 0⟩] "add").1.mpr
      ⟨⟨"add", 0⟩, by decide, rfl, rfl,
        fun hs => absurd ((isInternal_iff "add").mpr hs) (by decide)⟩
  · exact (showInfo_lists_iff_public_function
      [⟨"_start", 0⟩, ⟨"cabi_post", 0⟩] "x").2.mpr (by decide)

/-- C10 witness: a compiled module exporting only `add` is a library; a
failed load is not. -/
theorem checkIsLibrary_iff_no_start_export_witness :
    utils.checkIsLibrary (some [⟨"add", 0⟩]) = true ∧
    utils.checkIsLibrary none = false := by
  constructor
  · exact (checkIsLibrary_iff_no_start_export (some [⟨"add", 0⟩])).mpr
      ⟨[⟨"add", 0⟩], rfl, by decide⟩
  · decide
